import Mathlib

/-!
Verification of the `preview` package of OgImgVyshkaClub
(src/internal/preview/preview.go), a Go image-compositing engine that
renders a social "Open Graph" preview card.

Shallow embedding conventions:
* Go `string` ↦ Lean `String` (a sequence of Unicode codepoints; Go rune
  operations map to `String.data` operations).
* Go `[]byte` buffers ↦ `Bytes := List Nat`.
* Go `float64` layout arithmetic ↦ `Rat` (all constants involved — 20.0,
  48.0, halves of small integers — are exactly representable in float64,
  so rational arithmetic is exact for the quantities the theorems touch).
* Go `int` ↦ `Int`; Go integer division truncates toward zero, which is
  `Int.tdiv`.
* Fallible Go calls returning `(T, error)` ↦ `Except GoErr T`;
  `fmt.Errorf("msg: %w", err)` ↦ `GoErr.wrap "msg" err`.
* External libraries (govips, the stdlib image decoders, the gg drawing
  library, truetype parsing, the embedded-FS font reader and the remote
  resolver) are not part of this repository; they are modelled at their
  interface boundary as records of abstract functions (`Vips`, `Libs`,
  `Env`), and theorems that depend on library behaviour take the
  documented contract of the library call as an explicit hypothesis.
* The mutable `gg.Context` ↦ a value `GG` accumulating the ordered list
  of drawing operations issued to the library; a pixel-level reading of
  that list is given by `pixelAt`, which interprets axis-aligned
  rectangle fills, circle fills and image draws with an idealized
  (non-antialiased) rasterizer at integer pixel coordinates.
-/

namespace OgPreview

/-- Raw byte buffers (`[]byte` in Go). -/
abbrev Bytes := List Nat

/-- Go errors: either a library-produced base error or a wrapping via
`fmt.Errorf("msg: %w", cause)`. -/
inductive GoErr where
  | base (msg : String)
  | wrap (msg : String) (cause : GoErr)
deriving DecidableEq, Repr

/-- The result of `image.DecodeConfig`: the natural dimensions of an
encoded image. -/
structure ImgCfg where
  width : Int
  height : Int
deriving DecidableEq, Repr

/-- A decoded govips image handle, carrying its current dimensions.
The payload field keeps whatever extra state a concrete model of the
library wants to track. -/
structure VImg where
  width : Int
  height : Int
  payload : Bytes
deriving DecidableEq, Repr

/-- Interface-boundary model of the image codec/transform libraries used
by `resize` and `scale`: `image.DecodeConfig`, `vips.NewImageFromBuffer`,
`Image.Thumbnail`, `Image.Resize` and `Image.Export`. -/
structure Vips where
  decodeConfig : Bytes → Except GoErr ImgCfg
  newImageFromBuffer : Bytes → Except GoErr VImg
  thumbnail : VImg → Int → Int → Except GoErr VImg
  vresize : VImg → Rat → Except GoErr VImg
  exportBuf : VImg → Except GoErr Bytes

/-- Embedding of `resize` (preview.go:275-307): decode the config, take
the no-op fast path when the dimensions already match, otherwise run the
vips attention-based thumbnail and re-export. Errors are returned
unwrapped, exactly as in the source. -/
def resize (v : Vips) (buf : Bytes) (w h : Int) : Except GoErr Bytes :=
  match v.decodeConfig buf with
  | .error e => .error e
  | .ok config =>
    if config.width = w ∧ config.height = h then
      .ok buf
    else
      match v.newImageFromBuffer buf with
      | .error e => .error e
      | .ok vipsImg =>
        match v.thumbnail vipsImg w h with
        | .error e => .error e
        | .ok vipsImg => v.exportBuf vipsImg

/-- Embedding of `scale` (preview.go:310-342): decode the config, no-op
when the height already matches, otherwise apply a uniform vips resize by
the ratio `h / currentHeight` and re-export. -/
def scale (v : Vips) (buf : Bytes) (h : Int) : Except GoErr Bytes :=
  match v.decodeConfig buf with
  | .error e => .error e
  | .ok config =>
    if config.height = h then
      .ok buf
    else
      match v.newImageFromBuffer buf with
      | .error e => .error e
      | .ok vipsImg =>
        match v.vresize vipsImg ((h : Rat) / (config.height : Rat)) with
        | .error e => .error e
        | .ok vipsImg => v.exportBuf vipsImg

/-- Decidable equality for `Except`, used to evaluate closed witness
statements by `decide`. -/
instance {ε α : Type} [DecidableEq ε] [DecidableEq α] :
    DecidableEq (Except ε α) := fun a b =>
  match a, b with
  | .error e, .error f =>
    if h : e = f then isTrue (by rw [h])
    else isFalse (fun hh => h (by cases hh; rfl))
  | .error _, .ok _ => isFalse (fun hh => Except.noConfusion hh)
  | .ok _, .error _ => isFalse (fun hh => Except.noConfusion hh)
  | .ok a, .ok b =>
    if h : a = b then isTrue (by rw [h])
    else isFalse (fun hh => h (by cases hh; rfl))

/-- Claim C4: `resize` is idempotent for every buffer and target (w,h):
if the decoded dimensions already equal (w,h) it returns the input buffer
unchanged (no-op fast path), and re-applying `resize` with the same
(w,h) to any successful output returns that output unchanged, because the
fast path triggers on the second call.  The hypothesis `hc` is the
contract of the vips thumbnail pipeline: a buffer exported after
`Thumbnail w h` decodes to dimensions exactly (w,h). -/
theorem resize_idempotent (v : Vips) (buf : Bytes) (w h : Int)
    (hc : ∀ b i t eb, v.newImageFromBuffer b = .ok i →
      v.thumbnail i w h = .ok t → v.exportBuf t = .ok eb →
      v.decodeConfig eb = .ok ⟨w, h⟩) :
    (∀ cfg, v.decodeConfig buf = .ok cfg → cfg.width = w → cfg.height = h →
      resize v buf w h = .ok buf) ∧
    (∀ out, resize v buf w h = .ok out → resize v out w h = .ok out) := by
  constructor
  · intro cfg hcfg hw hh
    simp [resize, hcfg, hw, hh]
  · intro out hout
    unfold resize at hout
    cases hdc : v.decodeConfig buf with
    | error e => simp [hdc] at hout
    | ok cfg =>
      simp only [hdc] at hout
      by_cases hfast : cfg.width = w ∧ cfg.height = h
      · rw [if_pos hfast] at hout
        cases hout
        simp [resize, hdc, hfast.1, hfast.2]
      · rw [if_neg hfast] at hout
        cases hnb : v.newImageFromBuffer buf with
        | error e => simp only [hnb] at hout; exact Except.noConfusion hout
        | ok i =>
          simp only [hnb] at hout
          cases hth : v.thumbnail i w h with
          | error e => simp only [hth] at hout; exact Except.noConfusion hout
          | ok t =>
            simp only [hth] at hout
            have hcfg2 := hc buf i t out hnb hth hout
            simp [resize, hcfg2]

/-- A concrete model of the codec libraries for evaluating the theorems
on closed inputs: a buffer `[w, h]` encodes an image of dimensions w×h,
`thumbnail` produces exactly the requested dimensions, and `vresize`
rounds each scaled dimension to the nearest integer. -/
def toyVips : Vips where
  decodeConfig b := match b with
    | [w, h] => .ok ⟨w, h⟩
    | _ => .error (.base "bad buffer")
  newImageFromBuffer b := match b with
    | [w, h] => .ok ⟨w, h, []⟩
    | _ => .error (.base "bad buffer")
  thumbnail _ w h := .ok ⟨w, h, []⟩
  vresize i r := .ok ⟨round ((i.width : Rat) * r), round ((i.height : Rat) * r), []⟩
  exportBuf i :=
    if 0 ≤ i.width ∧ 0 ≤ i.height then .ok [i.width.toNat, i.height.toNat]
    else .error (.base "bad dims")

/-- Witness for C4 at a concrete input: resizing a 5×5 buffer to 3×4
succeeds, and resizing the output again is a no-op. -/
theorem resize_idempotent_witness :
    resize toyVips [5, 5] 3 4 = .ok [3, 4] ∧
      resize toyVips [3, 4] 3 4 = .ok [3, 4] := by
  have h := resize_idempotent toyVips [5, 5] 3 4 (by
    intro b i t eb hnb hth hex
    simp only [toyVips] at hth hex
    cases hth
    simp only [Except.ok.injEq] at hex
    cases hex
    rfl)
  exact ⟨by decide, h.2 [3, 4] (by decide)⟩

/-- Claim C8: `scale` returns the input unchanged when the decoded
height already equals `h`; otherwise it applies one uniform vips resize
by the ratio `h / currentHeight` (no cropping operation exists in this
code path), so for any target height `h > 0` the output buffer decodes to
height exactly `h` and to a width/height ratio within rounding tolerance
`1/(2h)` of the input's ratio.  Hypotheses `hnb`, `hrz`, `hex` are the
library contracts: a buffer handle carries the decoded dimensions, a
uniform resize by `r` lands each dimension within 1/2 of the exact scaled
value, and exporting preserves dimensions. -/
theorem scale_aspect (v : Vips) (buf : Bytes) (h w0 h0 : Int)
    (hdc : v.decodeConfig buf = .ok ⟨w0, h0⟩)
    (hnb : ∀ i, v.newImageFromBuffer buf = .ok i →
      i.width = w0 ∧ i.height = h0)
    (hrz : ∀ i r i', v.vresize i r = .ok i' →
      |(i.width : Rat) * r - ((i'.width : Int) : Rat)| ≤ 1 / 2 ∧
      |(i.height : Rat) * r - ((i'.height : Int) : Rat)| ≤ 1 / 2)
    (hex : ∀ i b, v.exportBuf i = .ok b →
      v.decodeConfig b = .ok ⟨i.width, i.height⟩)
    (hpos : 0 < h) (hpos0 : 0 < h0) :
    (h0 = h → scale v buf h = .ok buf) ∧
    (∀ out, scale v buf h = .ok out → ∃ w',
      v.decodeConfig out = .ok ⟨w', h⟩ ∧
      |(w' : Rat) / (h : Rat) - (w0 : Rat) / (h0 : Rat)| ≤
        1 / (2 * (h : Rat))) := by
  have hQ : ((h : Rat)) ≠ 0 := by
    exact_mod_cast ne_of_gt (by exact_mod_cast hpos : (0 : Rat) < (h : Rat))
  have h0Q : ((h0 : Rat)) ≠ 0 := by
    exact_mod_cast ne_of_gt (by exact_mod_cast hpos0 : (0 : Rat) < (h0 : Rat))
  constructor
  · intro heq
    simp [scale, hdc, heq]
  · intro out hout
    unfold scale at hout
    simp only [hdc] at hout
    by_cases heq : h0 = h
    · rw [if_pos heq] at hout
      cases hout
      refine ⟨w0, by rw [hdc, heq], ?_⟩
      rw [heq, sub_self, abs_zero]
      positivity
    · rw [if_neg heq] at hout
      cases hnbv : v.newImageFromBuffer buf with
      | error e => simp only [hnbv] at hout; exact Except.noConfusion hout
      | ok i =>
        simp only [hnbv] at hout
        obtain ⟨hiw, hih⟩ := hnb i hnbv
        cases hrv : v.vresize i ((h : Rat) / ((h0 : Int) : Rat)) with
        | error e => simp only [hrv] at hout; exact Except.noConfusion hout
        | ok i' =>
          simp only [hrv] at hout
          obtain ⟨hbw, hbh⟩ := hrz i _ i' hrv
          rw [hiw] at hbw
          rw [hih] at hbh
          have hexact : ((h0 : Rat)) * ((h : Rat) / (h0 : Rat)) = (h : Rat) := by
            field_simp
          rw [hexact] at hbh
          have hhgt : i'.height = h := by
            by_contra hne
            have h1 : (1 : Rat) ≤ |(h : Rat) - (i'.height : Rat)| := by
              have : (1 : Int) ≤ |h - i'.height| :=
                Int.one_le_abs (sub_ne_zero_of_ne (fun hh => hne hh.symm))

              calc (1 : Rat) = ((1 : Int) : Rat) := by norm_num
                _ ≤ ((|h - i'.height| : Int) : Rat) := by exact_mod_cast this
                _ = |(h : Rat) - (i'.height : Rat)| := by
                    rw [Int.cast_abs]; push_cast; ring_nf
            linarith [hbh, h1]
          have hdec := hex i' out hout
          refine ⟨i'.width, by rw [hdec, hhgt], ?_⟩
          have key : (i'.width : Rat) / (h : Rat) - (w0 : Rat) / (h0 : Rat) =
              (((i'.width : Rat)) - (w0 : Rat) * ((h : Rat) / (h0 : Rat))) / (h : Rat) := by
            field_simp
            ring
          rw [key, abs_div, abs_of_pos (by exact_mod_cast hpos : (0 : Rat) < (h : Rat))]
          rw [abs_sub_comm] at hbw
          have hb2 : |(i'.width : Rat) - (w0 : Rat) * ((h : Rat) / (h0 : Rat))| ≤ 1 / 2 := hbw
          calc |(i'.width : Rat) - (w0 : Rat) * ((h : Rat) / (h0 : Rat))| / (h : Rat)
              ≤ (1 / 2) / (h : Rat) := by
                gcongr
            _ = 1 / (2 * (h : Rat)) := by ring

/-- Witness for C8 at a concrete input: scaling a 10×4 buffer to height 2
halves both dimensions, and the resulting ratio is exact. -/
theorem scale_aspect_witness :
    scale toyVips [10, 4] 2 = .ok [5, 2] ∧
    ∃ w', toyVips.decodeConfig [5, 2] = .ok ⟨w', 2⟩ ∧
      |(w' : Rat) / ((2 : Int) : Rat) - ((10 : Int) : Rat) / ((4 : Int) : Rat)| ≤
        1 / (2 * ((2 : Int) : Rat)) := by
  have h := scale_aspect toyVips [10, 4] 2 10 4 (by decide)
    (by intro i hi; cases hi; exact ⟨rfl, rfl⟩)
    (by
      intro i r i' hi
      cases hi
      exact ⟨abs_sub_round _, abs_sub_round _⟩)
    (by
      intro i b hb
      simp only [toyVips] at hb ⊢
      split at hb
      · rename_i hcond
        cases hb
        simp [Int.toNat_of_nonneg hcond.1, Int.toNat_of_nonneg hcond.2]
      · exact Except.noConfusion hb)
    (by decide) (by decide)
  refine ⟨?_, h.2 [5, 2] ?_⟩ <;> with_unfolding_all rfl

/-- An 8-bit RGBA color value. -/
structure RGBA where
  r : Nat
  g : Nat
  b : Nat
  a : Nat
deriving DecidableEq, Repr

/-- The fully transparent color, the initial content of a fresh RGBA
raster (`image.NewRGBA` zero-initializes all samples). -/
def transparent : RGBA := ⟨0, 0, 0, 0⟩

/-- A decoded bitmap: a `w × h` pixel grid with origin (0,0), the model
of a decoded `image.Image` (decoded images have zero-based bounds). -/
structure Bitmap where
  w : Nat
  h : Nat
  pix : List (List RGBA)
deriving DecidableEq, Repr

/-- Pixel lookup in a bitmap (row-major), transparent outside the grid. -/
def pixAt (bm : Bitmap) (x y : Nat) : RGBA :=
  (bm.pix.getD y []).getD x transparent

/-- Build a `w × h` pixel grid from a pixel function. -/
def mkGrid (w h : Nat) (f : Nat → Nat → RGBA) : List (List RGBA) :=
  (List.range h).map fun y => (List.range w).map fun x => f x y

theorem pixAt_mkGrid (w h : Nat) (f : Nat → Nat → RGBA) (x y : Nat)
    (hx : x < w) (hy : y < h) :
    pixAt ⟨w, h, mkGrid w h f⟩ x y = f x y := by
  simp [pixAt, mkGrid, List.getD, List.getElem?_map, List.getElem?_range, hx, hy]

/-- Embedding of `circle` (preview.go:345-365): crop a circle out of a
source bitmap.  The radius is `int(math.Min(Dx, Dy) / 2)` and the center
`(Dx/2, Dy/2)` (integer division), as in the source.  The gg calls
(`NewContextForRGBA` on a fresh transparent raster of the source bounds,
`DrawCircle` + `Clip`, then `DrawImage src 0 0`) are modelled with an
idealized non-antialiased rasterizer: pixel (x,y) lies inside the clip
region iff its squared distance from the center is at most the squared
radius; inside the region the source pixel is copied, outside it the
raster keeps its transparent initial value.  The function is pure: it
builds a fresh grid and never modifies `src`. -/
def circle (src : Bitmap) : Bitmap :=
  let r : Nat := min src.w src.h / 2
  let cx : Nat := src.w / 2
  let cy : Nat := src.h / 2
  { w := src.w
    h := src.h
    pix := mkGrid src.w src.h fun x y =>
      if ((x : Int) - cx) ^ 2 + ((y : Int) - cy) ^ 2 ≤ (r : Int) ^ 2 then
        pixAt src x y
      else transparent }

/-- Claim C5: `circle` returns a bitmap with bounds identical to the
input's; every pixel strictly farther than `min(w,h)/2` (the source's
integer radius) from the center `(w/2, h/2)` has alpha 0, and every pixel
strictly inside that radius carries the source pixel (in particular its
alpha).  Distances are compared through their squares, which is
equivalent for nonnegative quantities.  The source bitmap is untouched:
`circle` is a pure function of `src`. -/
theorem circle_mask (src : Bitmap) :
    (circle src).w = src.w ∧ (circle src).h = src.h ∧
    ∀ x y, x < src.w → y < src.h →
      (((x : Int) - (src.w / 2 : Nat)) ^ 2 + ((y : Int) - (src.h / 2 : Nat)) ^ 2 >
          ((min src.w src.h / 2 : Nat) : Int) ^ 2 →
        (pixAt (circle src) x y).a = 0) ∧
      (((x : Int) - (src.w / 2 : Nat)) ^ 2 + ((y : Int) - (src.h / 2 : Nat)) ^ 2 <
          ((min src.w src.h / 2 : Nat) : Int) ^ 2 →
        (pixAt (circle src) x y).a = (pixAt src x y).a) := by
  refine ⟨rfl, rfl, ?_⟩
  intro x y hx hy
  rw [show circle src = ⟨src.w, src.h, mkGrid src.w src.h fun x y =>
      if ((x : Int) - (src.w / 2 : Nat)) ^ 2 + ((y : Int) - (src.h / 2 : Nat)) ^ 2 ≤
          ((min src.w src.h / 2 : Nat) : Int) ^ 2 then
        pixAt src x y
      else transparent⟩ from rfl]
  rw [pixAt_mkGrid _ _ _ x y hx hy]
  constructor
  · intro hfar
    rw [if_neg (not_le_of_gt hfar)]
    rfl
  · intro hnear
    rw [if_pos (le_of_lt hnear)]

/-- A concrete 5×4 test bitmap with varying alpha values. -/
def srcW : Bitmap := ⟨5, 4, mkGrid 5 4 fun x y => ⟨x, y, 0, x + y + 1⟩⟩

/-- Witness for C5 at a concrete input: in a 5×4 bitmap the corner (0,0)
is strictly outside the radius-2 circle and is transparent, while the
center (2,2) is strictly inside and keeps the source alpha. -/
theorem circle_mask_witness :
    (circle srcW).w = srcW.w ∧
    (pixAt (circle srcW) 0 0).a = 0 ∧
    (pixAt (circle srcW) 2 2).a = (pixAt srcW 2 2).a := by
  obtain ⟨h1, _, h3⟩ := circle_mask srcW
  refine ⟨h1, ?_, ?_⟩
  · exact (h3 0 0 (by decide) (by decide)).1 (by decide)
  · exact (h3 2 2 (by decide) (by decide)).2 (by decide)

/-! Layout constants (preview.go:23-33). -/

def margin : Rat := 20
def padding : Rat := 48
def border : Int := 8
def maxTitleLength : Nat := 90
def defaultBgColor : String := "#FFFFFF"
def avatarBorderColor : String := "#FFFFFF"
def textFont : String := "fonts/Ubuntu-Medium.ttf"
def symbolsFont : String := "fonts/NotoSansSymbols-Medium.ttf"
def emojiFont : String := "fonts/NotoEmoji-Regular.ttf"

/-- Is `c` an ASCII hexadecimal digit (the character class `[0-9a-fA-F]`)? -/
def isHexDigit (c : Char) : Bool :=
  (decide ('0' ≤ c) && decide (c ≤ '9')) ||
  (decide ('a' ≤ c) && decide (c ≤ 'f')) ||
  (decide ('A' ≤ c) && decide (c ≤ 'F'))

/-- Embedding of the regular expression
`^#(?:[0-9a-fA-F]{3}){1,2}$` (preview.go:37): a `#` followed by exactly
three or exactly six hex digits. -/
def hexMatch (s : String) : Bool :=
  match s.data with
  | c :: rest =>
      c == '#' && (rest.length == 3 || rest.length == 6) && rest.all isHexDigit
  | [] => false

/-- Value of a hex digit character (0 for non-digits; callers guard). -/
def hexVal (c : Char) : Nat :=
  if '0' ≤ c ∧ c ≤ '9' then c.toNat - '0'.toNat
  else if 'a' ≤ c ∧ c ≤ 'f' then c.toNat - 'a'.toNat + 10
  else if 'A' ≤ c ∧ c ≤ 'F' then c.toNat - 'A'.toNat + 10
  else 0

/-- Parse the digit part of a hex color the way gg's `SetHexColor`
does: 3 digits RGB with each nibble duplicated, 6 digits RRGGBB with
alpha 255, 8 digits RRGGBBAA, anything else black at full alpha. -/
def parseHexDigits (rest : List Char) : RGBA :=
  match rest with
  | [r, g, b] => ⟨17 * hexVal r, 17 * hexVal g, 17 * hexVal b, 255⟩
  | [r1, r2, g1, g2, b1, b2] =>
      ⟨16 * hexVal r1 + hexVal r2, 16 * hexVal g1 + hexVal g2,
       16 * hexVal b1 + hexVal b2, 255⟩
  | [r1, r2, g1, g2, b1, b2, a1, a2] =>
      ⟨16 * hexVal r1 + hexVal r2, 16 * hexVal g1 + hexVal g2,
       16 * hexVal b1 + hexVal b2, 16 * hexVal a1 + hexVal a2⟩
  | _ => ⟨0, 0, 0, 255⟩

/-- Model of gg's hex color parser: strip a leading `#` and parse. -/
def parseHexColor (s : String) : RGBA :=
  match s.data with
  | c :: rest => if c = '#' then parseHexDigits rest else parseHexDigits (c :: rest)
  | [] => parseHexDigits []

/-- Go conversion `int(q)` from float64: truncation toward zero. -/
def ratTrunc (q : Rat) : Int :=
  if q < 0 then -((-q).floor) else q.floor

/-- Go conversion `uint8(q)` from float64 for the in-range values the
program produces (opacity in [0,1] scaled by 255): truncation. -/
def goUint8 (q : Rat) : Nat := (ratTrunc q).toNat % 256

/-- A parsed truetype font program (`truetype.Parse` output), identified
by its source bytes. -/
structure FontProg where
  prog : Bytes
deriving DecidableEq, Repr

/-- A multiface composite font face: the ordered list of component font
programs, each rasterized at the requested point size (primary text
font first, then symbols, then emoji). -/
structure Face where
  faces : List (FontProg × Rat)
deriving DecidableEq, Repr

/-- Interface-boundary model of the remaining external capabilities:
`image.Decode` (full bitmap decode), the embedded-FS font file reader,
and `truetype.Parse`. -/
structure Libs where
  vips : Vips
  imgDecode : Bytes → Except GoErr Bitmap
  fsRead : String → Except GoErr Bytes
  ttParse : Bytes → Except GoErr FontProg

/-- The full environment of `Draw`: the remote resolver (`getter`
interface, preview.go:39-41) plus the libraries. -/
structure Env where
  getAll : List String → Except GoErr (List Bytes)
  libs : Libs

/-- Embedding of `loadFont` (preview.go:367-424): read and parse the
named text font plus the fixed symbols and emoji fonts, and assemble the
three faces in order at the same point size. -/
def loadFont (L : Libs) (name : String) (points : Rat) : Except GoErr Face :=
  match L.fsRead name with
  | .error e => .error e
  | .ok textBuf =>
    match L.ttParse textBuf with
    | .error e => .error e
    | .ok tf =>
      match L.fsRead symbolsFont with
      | .error e => .error e
      | .ok sBuf =>
        match L.ttParse sBuf with
        | .error e => .error e
        | .ok sf =>
          match L.fsRead emojiFont with
          | .error e => .error e
          | .ok eBuf =>
            match L.ttParse eBuf with
            | .error e => .error e
            | .ok ef => .ok ⟨[(tf, points), (sf, points), (ef, points)]⟩

/-- Text alignment passed to `DrawStringWrapped`; the source only uses
`gg.AlignLeft`. -/
inductive Align where
  | left
deriving DecidableEq, Repr

/-- One drawing call issued to the gg context, recorded in order.  Fill
calls follow gg's model: path-building calls accumulate a path, `fill`
paints the accumulated path with the current color and clears it. -/
inductive Op where
  | setColor (c : RGBA)
  | pathRect (x y w h : Rat)
  | pathCircle (x y r : Rat)
  | fill
  | drawImage (img : Bitmap) (x y : Int)
  | drawImageAnchored (img : Bitmap) (x y : Int) (ax ay : Rat)
  | setFace (f : Face)
  | strAnchored (s : String) (x y ax ay : Rat)
  | strWrapped (s : String) (x y ax ay width lineSpacing : Rat) (align : Align)
deriving DecidableEq, Repr

/-- The gg drawing context: canvas dimensions plus the ordered log of
drawing operations issued so far. -/
structure GG where
  width : Int
  height : Int
  ops : List Op
deriving DecidableEq, Repr

/-- `gg.NewContext w h`: a fresh context with an empty operation log
(the underlying raster starts fully transparent). -/
def newContext (w h : Int) : GG := ⟨w, h, []⟩

/-- Embedding of the `Options` value object (preview.go:44-76). -/
structure Options where
  canvasW : Int
  canvasH : Int
  opacity : Rat
  avaD : Int
  title : String
  titleSize : Rat
  author : String
  authorSize : Rat
  labelL : String
  labelR : String
  labelSize : Rat
  bg : String
  avaURL : String
  logoURL : String
  logoH : Int
  quality : Int
deriving DecidableEq, Repr

/-- Embedding of `drawBackground` (preview.go:147-171).  With a nil
buffer: set the (hex-parsed) color, add the full-canvas rectangle and
fill.  With a buffer: crop-resize it to the canvas size, decode it and
draw it at the origin, wrapping any resize/decode failure. -/
def drawBackground (L : Libs) (opts : Options) (ctx : GG)
    (bgBuf : Option Bytes) (bgColor : String) : Except GoErr GG :=
  match bgBuf with
  | none =>
      .ok { ctx with ops := ctx.ops ++
        [.setColor (parseHexColor bgColor),
         .pathRect 0 0 (opts.canvasW : Rat) (opts.canvasH : Rat),
         .fill] }
  | some buf =>
    match resize L.vips buf opts.canvasW opts.canvasH with
    | .error e => .error (.wrap "could not resize the background" e)
    | .ok rb =>
      match L.imgDecode rb with
      | .error e => .error (.wrap "could not decode the background" e)
      | .ok img => .ok { ctx with ops := ctx.ops ++ [.drawImage img 0 0] }

/-- Embedding of `drawForeground` (preview.go:173-179): translucent
black rectangle inset by `margin`; never fails. -/
def drawForeground (opts : Options) (ctx : GG) : Except GoErr GG :=
  .ok { ctx with ops := ctx.ops ++
    [.setColor ⟨0, 0, 0, goUint8 (255 * opts.opacity)⟩,
     .pathRect margin margin ((opts.canvasW : Rat) - margin * 2)
       ((opts.canvasH : Rat) - margin * 2),
     .fill] }

/-- Embedding of `drawAvatar` (preview.go:181-208).  The border circle
center uses float division `(AvaD+border)/2`; the radius is the integer
division `(AvaD+8)/2` with the hardcoded literal 8, converted to
float64.  Then the avatar buffer is crop-resized to AvaD×AvaD, decoded,
circle-masked and drawn center-anchored at the same point (Go truncates
the float center to int at the call).  In the Go source the circle ops
mutate the shared context before the fallible resize/decode; since the
context is discarded on error, appending all ops on success is
observationally identical. -/
def drawAvatar (L : Libs) (opts : Options) (ctx : GG) (avaBuf : Bytes) :
    Except GoErr GG :=
  let avaX : Rat := padding + ((opts.avaD + border : Int) : Rat) / 2
  let avaY : Rat := padding + ((opts.avaD + border : Int) : Rat) / 2
  match resize L.vips avaBuf opts.avaD opts.avaD with
  | .error e => .error (.wrap "could not resize the avatar" e)
  | .ok ab =>
    match L.imgDecode ab with
    | .error e => .error (.wrap "could not decode the avatar" e)
    | .ok avaImg =>
      .ok { ctx with ops := ctx.ops ++
        [.pathCircle avaX avaY ((Int.tdiv (opts.avaD + 8) 2 : Int) : Rat),
         .setColor (parseHexColor avatarBorderColor),
         .fill,
         .drawImageAnchored (circle avaImg) (ratTrunc avaX) (ratTrunc avaY)
           (1 / 2) (1 / 2)] }

/-- Embedding of `drawAuthor` (preview.go:210-226): load the text font
at `AuthorSize`, semi-transparent white, draw the author string
left-anchored and vertically centered at the author anchor. -/
def drawAuthor (L : Libs) (opts : Options) (ctx : GG) : Except GoErr GG :=
  match loadFont L textFont opts.authorSize with
  | .error e => .error (.wrap "could not load a font face" e)
  | .ok f =>
    .ok { ctx with ops := ctx.ops ++
      [.setFace f,
       .setColor ⟨255, 255, 255, 204⟩,
       .strAnchored opts.author (padding + (opts.avaD : Rat) + padding / 2)
         (padding + (opts.avaD : Rat) / 2) 0 (1 / 2)] }

/-- Embedding of `drawTitle` (preview.go:228-250): load the text font at
`TitleSize`, opaque white, truncate the title to 90 codepoints plus an
ellipsis when longer, then draw it word-wrapped at the title anchor. -/
def drawTitle (L : Libs) (opts : Options) (ctx : GG) : Except GoErr GG :=
  match loadFont L textFont opts.titleSize with
  | .error e => .error (.wrap "could not load a font face" e)
  | .ok f =>
    let title :=
      if opts.title.length > maxTitleLength then
        String.mk (opts.title.data.take maxTitleLength) ++ "…"
      else opts.title
    .ok { ctx with ops := ctx.ops ++
      [.setFace f,
       .setColor ⟨255, 255, 255, 255⟩,
       .strWrapped title padding (padding * 2 + (opts.avaD : Rat)) 0 0
         ((opts.canvasW : Rat) - padding - margin * 2) (6 / 5) .left] }

/-- Embedding of `drawLogo` (preview.go:252-271): scale the logo buffer
to `LogoH` (width proportional), decode, draw at the bottom-right
anchor.  `padding` participates in int arithmetic here (the untyped Go
constant 48.0 converts to int 48). -/
def drawLogo (L : Libs) (opts : Options) (ctx : GG) (logoBuf : Bytes) :
    Except GoErr GG :=
  match scale L.vips logoBuf opts.logoH with
  | .error e => .error (.wrap "could not resize the logo" e)
  | .ok lb =>
    match L.imgDecode lb with
    | .error e => .error (.wrap "could not decode the logo" e)
    | .ok logoImg =>
      .ok { ctx with ops := ctx.ops ++
        [.drawImage logoImg (opts.canvasW - 48 - (logoImg.w : Int))
          (opts.canvasH - 48 - opts.logoH)] }

/-- The run-level outcome of `Draw`: a Go error value, or a Go panic
(out-of-range slice index), which in Go never reaches the caller as a
returned error. -/
inductive RunErr where
  | goerr (e : GoErr)
  | outOfRange (msg : String)
deriving DecidableEq, Repr

/-- Map a stage's Go error into the run-level error type. -/
def emapGo {α : Type} : Except GoErr α → Except RunErr α
  | .error e => .error (.goerr e)
  | .ok a => .ok a

/-- The list of identifiers `Draw` hands to the resolver
(preview.go:99-106): avatar URL, logo URL, plus the background spec iff
it is neither a hex color nor empty. -/
def requestList (opts : Options) : List String :=
  if hexMatch opts.bg then [opts.avaURL, opts.logoURL]
  else if opts.bg = "" then [opts.avaURL, opts.logoURL]
  else [opts.avaURL, opts.logoURL, opts.bg]

/-- Stage 1 dispatch inside `Draw` (preview.go:114-122): hex or empty
background specs fill with a solid color (the hex spec itself, or the
default white); otherwise the fetched background bytes `imgBufs[2]` are
drawn (a missing index would be a Go slice-range panic). -/
def bgStage (L : Libs) (opts : Options) (imgBufs : List Bytes) (ctx : GG) :
    Except RunErr GG :=
  if hexMatch opts.bg ∨ opts.bg = "" then
    emapGo (drawBackground L opts ctx none
      (if hexMatch opts.bg then opts.bg else defaultBgColor))
  else
    match imgBufs[2]? with
    | some b => emapGo (drawBackground L opts ctx (some b)
        (if hexMatch opts.bg then opts.bg else defaultBgColor))
    | none => .error (.outOfRange "index out of range")

/-- The six pipeline stages in draw order. -/
inductive Stage where
  | background
  | foreground
  | avatar
  | author
  | title
  | logo
deriving DecidableEq, Repr

/-- The fixed total draw order of the six stages. -/
def stageOrder : List Stage :=
  [.background, .foreground, .avatar, .author, .title, .logo]

/-- The wrapping messages each stage can attach to an error
(the author and title stages share the font-load message). -/
def stageMsgs : Stage → List String
  | .background => ["could not resize the background",
                    "could not decode the background"]
  | .foreground => []
  | .avatar => ["could not resize the avatar", "could not decode the avatar"]
  | .author => ["could not load a font face"]
  | .title => ["could not load a font face"]
  | .logo => ["could not resize the logo", "could not decode the logo"]

/-- Embedding of `Draw` (preview.go:95-145), instrumented with the list
of stages whose stage function the control flow reaches: fetch all
buffers (wrapping a resolver failure), then run the six stages in order,
stopping at the first failure.  The returned `GG` is the final canvas
(`p.ctx.Image()`); on error Go returns `(nil, err)`, i.e. no canvas. -/
def DrawT (env : Env) (opts : Options) : List Stage × Except RunErr GG :=
  let ctx0 := newContext opts.canvasW opts.canvasH
  match env.getAll (requestList opts) with
  | .error e => ([], .error (.goerr (.wrap "could not get an image" e)))
  | .ok imgBufs =>
    match bgStage env.libs opts imgBufs ctx0 with
    | .error e => ([.background], .error e)
    | .ok c1 =>
      match drawForeground opts c1 with
      | .error e => ([.background, .foreground], .error (.goerr e))
      | .ok c2 =>
        match imgBufs[0]? with
        | none => ([.background, .foreground, .avatar],
                   .error (.outOfRange "index out of range"))
        | some avaBuf =>
          match drawAvatar env.libs opts c2 avaBuf with
          | .error e => ([.background, .foreground, .avatar],
                         .error (.goerr e))
          | .ok c3 =>
            match drawAuthor env.libs opts c3 with
            | .error e => ([.background, .foreground, .avatar, .author],
                           .error (.goerr e))
            | .ok c4 =>
              match drawTitle env.libs opts c4 with
              | .error e =>
                  ([.background, .foreground, .avatar, .author, .title],
                   .error (.goerr e))
              | .ok c5 =>
                match imgBufs[1]? with
                | none => (stageOrder, .error (.outOfRange "index out of range"))
                | some logoBuf =>
                  match drawLogo env.libs opts c5 logoBuf with
                  | .error e => (stageOrder, .error (.goerr e))
                  | .ok c6 => (stageOrder, .ok c6)

/-- The `Draw` entry point as Go sees it: the image-or-error result. -/
def Draw (env : Env) (opts : Options) : Except RunErr GG :=
  (DrawT env opts).2

/-- One pending path object of the rasterizer state. -/
inductive PathObj where
  | rect (x y w h : Rat)
  | circ (x y r : Rat)
deriving DecidableEq, Repr

/-- Does a path object cover integer pixel (x,y)?  Idealized
non-antialiased coverage: a rectangle covers the half-open integer box,
a circle covers the pixels within its radius. -/
def covers (p : PathObj) (x y : Int) : Bool :=
  match p with
  | .rect rx ry rw rh =>
      decide (rx ≤ (x : Rat) ∧ (x : Rat) < rx + rw ∧
              ry ≤ (y : Rat) ∧ (y : Rat) < ry + rh)
  | .circ cx cy r =>
      decide (((x : Rat) - cx) ^ 2 + ((y : Rat) - cy) ^ 2 ≤ r ^ 2)

/-- Source-over alpha compositing on 8-bit channels (integer division),
`src` over `dst`; an opaque source replaces the destination exactly. -/
def over (src dst : RGBA) : RGBA :=
  ⟨src.r + dst.r * (255 - src.a) / 255,
   src.g + dst.g * (255 - src.a) / 255,
   src.b + dst.b * (255 - src.a) / 255,
   src.a + dst.a * (255 - src.a) / 255⟩

/-- The idealized rasterization of an operation log at integer pixel
(x,y): fold the ops with state (current pixel value, current color,
pending paths).  `fill` paints the pixel when a pending path covers it
and clears the paths; image draws composite the image pixel when (x,y)
falls inside the placed image; text operations are not rasterized by
this model. -/
def pixelAt (ops : List Op) (x y : Int) : RGBA :=
  (ops.foldl (fun st op =>
    match op with
    | .setColor c => (st.1, c, st.2.2)
    | .pathRect a b w h => (st.1, st.2.1, PathObj.rect a b w h :: st.2.2)
    | .pathCircle a b r => (st.1, st.2.1, PathObj.circ a b r :: st.2.2)
    | .fill =>
        (if st.2.2.any (fun p => covers p x y) then over st.2.1 st.1 else st.1,
         st.2.1, [])
    | .drawImage img ix iy =>
        (if ix ≤ x ∧ x < ix + (img.w : Int) ∧ iy ≤ y ∧ y < iy + (img.h : Int)
         then over (pixAt img (x - ix).toNat (y - iy).toNat) st.1
         else st.1, st.2.1, st.2.2)
    | .drawImageAnchored img ix iy ax ay =>
        let lx := ix - ratTrunc (ax * (img.w : Rat))
        let ly := iy - ratTrunc (ay * (img.h : Rat))
        (if lx ≤ x ∧ x < lx + (img.w : Int) ∧ ly ≤ y ∧ y < ly + (img.h : Int)
         then over (pixAt img (x - lx).toNat (y - ly).toNat) st.1
         else st.1, st.2.1, st.2.2)
    | .setFace _ => st
    | .strAnchored _ _ _ _ _ => st
    | .strWrapped _ _ _ _ _ _ _ _ => st)
    (transparent, ⟨0, 0, 0, 255⟩, ([] : List PathObj))).1

/-- Claim C1: whenever `drawTitle` succeeds, the string it hands to
`DrawStringWrapped` is the truncation-policy image of the title: the
original title unchanged when it has at most 90 codepoints, and exactly
the first 90 codepoints followed by one ellipsis character when longer.
The count (`utf8.RuneCountInString`) and the slice (`[]rune(title)`) are
codepoint operations — `String.length`/`String.data` here — so no
multi-byte character can be split. -/
theorem title_truncation (L : Libs) (opts : Options) (ctx ctx' : GG)
    (hok : drawTitle L opts ctx = .ok ctx') :
    ∃ f t, ctx'.ops = ctx.ops ++
      [.setFace f, .setColor ⟨255, 255, 255, 255⟩,
       .strWrapped t padding (padding * 2 + (opts.avaD : Rat)) 0 0
         ((opts.canvasW : Rat) - padding - margin * 2) (6 / 5) .left] ∧
      (opts.title.length ≤ maxTitleLength → t = opts.title) ∧
      (opts.title.length > maxTitleLength →
        t.data = opts.title.data.take maxTitleLength ++ ['…']) := by
  unfold drawTitle at hok
  cases hlf : loadFont L textFont opts.titleSize with
  | error e => simp only [hlf] at hok; exact Except.noConfusion hok
  | ok f =>
    simp only [hlf] at hok
    cases hok
    refine ⟨f, _, rfl, ?_, ?_⟩
    · intro hle
      rw [if_neg (by omega)]
    · intro hgt
      rw [if_pos hgt]
      show (String.mk (opts.title.data.take maxTitleLength) ++ "…").data = _
      rw [show ∀ a b : String, (a ++ b).data = a.data ++ b.data from
        fun a b => rfl]

/-- A concrete model of the non-vips libraries for evaluating theorems
on closed inputs: a buffer `[w, h]` decodes to a solid w×h bitmap, any
font file reads and parses successfully. -/
def testLibs : Libs where
  vips := toyVips
  imgDecode b :=
    match b with
    | [w, h] => .ok ⟨w, h, mkGrid w h fun _ _ => ⟨200, 10, 10, 255⟩⟩
    | _ => .error (.base "bad image")
  fsRead name := .ok [name.length]
  ttParse b := .ok ⟨b⟩

/-- Concrete options used by the closed witnesses: hex background,
avatar diameter 4, a short title. -/
def optsW : Options :=
  { canvasW := 100, canvasH := 80, opacity := 1/2, avaD := 4,
    title := "Hello", titleSize := 40, author := "Jane", authorSize := 20,
    labelL := "", labelR := "", labelSize := 16, bg := "#112233",
    avaURL := "ava", logoURL := "logo", logoH := 2, quality := 80 }

/-- `optsW` with a 95-codepoint title (over the 90-codepoint cap). -/
def optsLong : Options :=
  { optsW with title := String.mk (List.replicate 95 'é') }

/-- Witness for C1 at a concrete input: a 95-codepoint title of
multi-byte characters is drawn as its first 90 codepoints plus one
ellipsis. -/
theorem title_truncation_witness :
    ∃ ctx', drawTitle testLibs optsLong (newContext 100 80) = .ok ctx' ∧
    ∃ f t, ctx'.ops = (newContext 100 80).ops ++
      [.setFace f, .setColor ⟨255, 255, 255, 255⟩,
       .strWrapped t padding (padding * 2 + (optsLong.avaD : Rat)) 0 0
         ((optsLong.canvasW : Rat) - padding - margin * 2) (6 / 5) .left] ∧
      (optsLong.title.length ≤ maxTitleLength → t = optsLong.title) ∧
      (optsLong.title.length > maxTitleLength →
        t.data = optsLong.title.data.take maxTitleLength ++ ['…']) :=
  ⟨_, rfl, title_truncation testLibs optsLong (newContext 100 80) _ rfl⟩

/-- Counterexample for C6: with the odd avatar diameter 3 the border
circle is drawn centered at x = padding + (3+8)/2 = 107/2 = 53.5 (float
division) but with radius float64((3+8)/2) = 5 (integer division), so
the radius does not equal the 5.5-pixel distance from the anchor to the
padding edge — refuting the claim's "for odd as well as even AvaD". -/
theorem avatar_radius_counterexample :
    ∃ ctx', drawAvatar testLibs { optsW with avaD := 3 }
        (newContext 100 80) [3, 3] = .ok ctx' ∧
      ctx'.ops.head? = some (.pathCircle (107/2 : Rat) (107/2 : Rat) (5 : Rat)) ∧
      (5 : Rat) ≠ (107/2 : Rat) - padding := by
  refine ⟨_, rfl, ?_, ?_⟩
  · with_unfolding_all rfl
  · rw [show padding = (48 : Rat) from rfl]
    norm_num

/-- Claim C6 as amended: `drawAvatar` draws the border circle centered
at (padding + (AvaD+border)/2, same Y) — float division — with radius
`float64((AvaD+8)/2)`, Go integer (truncating) division of the
hardcoded literal 8; numerically `(AvaD+8)/2 = (AvaD+border)/2` since
`border = 8`.  That radius equals the distance from the anchor to the
padding edge exactly when AvaD is even; for odd AvaD it is 1/2 short. -/
theorem avatar_border_circle (L : Libs) (opts : Options) (ctx : GG)
    (buf : Bytes) (ctx' : GG)
    (hok : drawAvatar L opts ctx buf = .ok ctx') :
    ∃ img rest, ctx'.ops = ctx.ops ++
      (.pathCircle (padding + ((opts.avaD + border : Int) : Rat) / 2)
         (padding + ((opts.avaD + border : Int) : Rat) / 2)
         ((Int.tdiv (opts.avaD + 8) 2 : Int) : Rat) ::
       .setColor (parseHexColor avatarBorderColor) :: .fill :: rest) ∧
      rest = [.drawImageAnchored (circle img)
        (ratTrunc (padding + ((opts.avaD + border : Int) : Rat) / 2))
        (ratTrunc (padding + ((opts.avaD + border : Int) : Rat) / 2))
        (1 / 2) (1 / 2)] ∧
      (((Int.tdiv (opts.avaD + 8) 2 : Int) : Rat) =
        (padding + ((opts.avaD + border : Int) : Rat) / 2) - padding ↔
        Even opts.avaD) := by
  unfold drawAvatar at hok
  cases hrs : resize L.vips buf opts.avaD opts.avaD with
  | error e => simp only [hrs] at hok; exact Except.noConfusion hok
  | ok ab =>
    simp only [hrs] at hok
    cases hdec : L.imgDecode ab with
    | error e => simp only [hdec] at hok; exact Except.noConfusion hok
    | ok avaImg =>
      simp only [hdec] at hok
      cases hok
      refine ⟨avaImg, _, rfl, rfl, ?_⟩
      rw [show padding + ((opts.avaD + border : Int) : Rat) / 2 - padding =
        ((opts.avaD + 8 : Int) : Rat) / 2 by
          rw [show border = (8 : Int) from rfl]; ring]
      constructor
      · intro heq
        have h2 : ((Int.tdiv (opts.avaD + 8) 2 : Int) : Rat) * 2 =
            ((opts.avaD + 8 : Int) : Rat) := by
          rw [heq]; ring
        have h3 : Int.tdiv (opts.avaD + 8) 2 * 2 = opts.avaD + 8 := by
          exact_mod_cast h2
        refine ⟨Int.tdiv (opts.avaD + 8) 2 - 4, by omega⟩
      · rintro ⟨k, hk⟩
        have h4 : opts.avaD + 8 = 2 * (k + 4) := by omega
        rw [h4, Int.mul_tdiv_cancel_left _ (by norm_num)]
        push_cast
        ring

/-- Witness for C6 (amended) at a concrete even input: diameter 4 gives
center 54 and radius 6 = 54 - 48. -/
theorem avatar_border_circle_witness :
    ∃ ctx', drawAvatar testLibs optsW (newContext 100 80) [4, 4] = .ok ctx' ∧
    ∃ img rest, ctx'.ops = (newContext 100 80).ops ++
      (.pathCircle (padding + ((optsW.avaD + border : Int) : Rat) / 2)
         (padding + ((optsW.avaD + border : Int) : Rat) / 2)
         ((Int.tdiv (optsW.avaD + 8) 2 : Int) : Rat) ::
       .setColor (parseHexColor avatarBorderColor) :: .fill :: rest) ∧
      rest = [.drawImageAnchored (circle img)
        (ratTrunc (padding + ((optsW.avaD + border : Int) : Rat) / 2))
        (ratTrunc (padding + ((optsW.avaD + border : Int) : Rat) / 2))
        (1 / 2) (1 / 2)] ∧
      (((Int.tdiv (optsW.avaD + 8) 2 : Int) : Rat) =
        (padding + ((optsW.avaD + border : Int) : Rat) / 2) - padding ↔
        Even optsW.avaD) :=
  ⟨_, rfl, avatar_border_circle testLibs optsW (newContext 100 80) [4, 4] _ rfl⟩

/-- Strings accepted by the hex pattern parse to a color with alpha 255
(both the 3- and the 6-digit branch of the parser set full alpha). -/
theorem parseHex_alpha (s : String) (h : hexMatch s = true) :
    (parseHexColor s).a = 255 := by
  unfold hexMatch at h
  unfold parseHexColor
  rcases hd : s.data with _ | ⟨c, rest⟩
  · rw [hd] at h
    exact absurd h (by simp)
  · rw [hd] at h
    simp only [hd]
    simp only [Bool.and_eq_true, Bool.or_eq_true, beq_iff_eq] at h
    obtain ⟨⟨hc, hlen⟩, _⟩ := h
    rw [if_pos hc]
    rcases rest with _ | ⟨a, _ | ⟨b, _ | ⟨c', _ | ⟨d, _ | ⟨e', _ | ⟨f, _ | ⟨g', t⟩⟩⟩⟩⟩⟩⟩ <;>
      simp_all [parseHexDigits]

/-- An opaque (or any) source color over a transparent destination is
the source color. -/
theorem over_transparent (c : RGBA) : over c transparent = c := by
  simp [over, transparent]

/-- Rasterizing a solid rectangle fill at a pixel inside the rectangle
yields the fill color composited over the fresh transparent canvas. -/
theorem pixelAt_fill_rect (c : RGBA) (x y : Int) (wd ht : Rat)
    (hx0 : 0 ≤ (x : Rat)) (hxW : (x : Rat) < wd)
    (hy0 : 0 ≤ (y : Rat)) (hyH : (y : Rat) < ht) :
    pixelAt [.setColor c, .pathRect 0 0 wd ht, .fill] x y = c := by
  unfold pixelAt
  simp [covers, hx0, hy0]
  rw [if_pos (by constructor <;> simpa)]
  exact over_transparent c

/-- Claim C3: for every background spec matching the hex pattern, the
background stage fills the whole canvas with the parsed color at full
opacity: the stage succeeds, its operation log is exactly set-color,
full-canvas rectangle, fill; the color's alpha is 255; no image is drawn
and no library (decoder) is consulted — the stage's result does not
depend on `L` at all; and all four corner pixels of the rasterized stage
equal the parsed color. -/
theorem background_hex_fill (L : Libs) (opts : Options) (bufs : List Bytes)
    (hhex : hexMatch opts.bg = true)
    (hw : 0 < opts.canvasW) (hh : 0 < opts.canvasH) :
    ∃ ctx', bgStage L opts bufs (newContext opts.canvasW opts.canvasH) =
        .ok ctx' ∧
      ctx'.ops = [.setColor (parseHexColor opts.bg),
                  .pathRect 0 0 (opts.canvasW : Rat) (opts.canvasH : Rat),
                  .fill] ∧
      (parseHexColor opts.bg).a = 255 ∧
      (∀ img x y, Op.drawImage img x y ∉ ctx'.ops) ∧
      (∀ L', bgStage L' opts bufs (newContext opts.canvasW opts.canvasH) =
        bgStage L opts bufs (newContext opts.canvasW opts.canvasH)) ∧
      pixelAt ctx'.ops 0 0 = parseHexColor opts.bg ∧
      pixelAt ctx'.ops (opts.canvasW - 1) 0 = parseHexColor opts.bg ∧
      pixelAt ctx'.ops 0 (opts.canvasH - 1) = parseHexColor opts.bg ∧
      pixelAt ctx'.ops (opts.canvasW - 1) (opts.canvasH - 1) =
        parseHexColor opts.bg := by
  have hstage : ∀ L' : Libs,
      bgStage L' opts bufs (newContext opts.canvasW opts.canvasH) =
      .ok ⟨opts.canvasW, opts.canvasH,
        [.setColor (parseHexColor opts.bg),
         .pathRect 0 0 (opts.canvasW : Rat) (opts.canvasH : Rat), .fill]⟩ := by
    intro L'
    unfold bgStage
    rw [if_pos (Or.inl hhex), if_pos hhex]
    simp [drawBackground, emapGo, newContext]
  have hwQ : (0 : Rat) < (opts.canvasW : Rat) := by exact_mod_cast hw
  have hhQ : (0 : Rat) < (opts.canvasH : Rat) := by exact_mod_cast hh
  have hw1 : ((opts.canvasW - 1 : Int) : Rat) < (opts.canvasW : Rat) := by
    push_cast; linarith
  have hw1' : (0 : Rat) ≤ ((opts.canvasW - 1 : Int) : Rat) := by
    have : (1 : Int) ≤ opts.canvasW := hw
    push_cast; linarith [(by exact_mod_cast this : (1 : Rat) ≤ (opts.canvasW : Rat))]
  have hh1 : ((opts.canvasH - 1 : Int) : Rat) < (opts.canvasH : Rat) := by
    push_cast; linarith
  have hh1' : (0 : Rat) ≤ ((opts.canvasH - 1 : Int) : Rat) := by
    have : (1 : Int) ≤ opts.canvasH := hh
    push_cast; linarith [(by exact_mod_cast this : (1 : Rat) ≤ (opts.canvasH : Rat))]
  refine ⟨_, hstage L, rfl, parseHex_alpha _ hhex, ?_, ?_, ?_, ?_, ?_, ?_⟩
  · intro img x y hmem
    simp at hmem
  · intro L'
    rw [hstage L', hstage L]
  · exact pixelAt_fill_rect _ _ _ _ _ (by norm_num) hwQ (by norm_num) hhQ
  · exact pixelAt_fill_rect _ _ _ _ _ hw1' hw1 (by norm_num) hhQ
  · exact pixelAt_fill_rect _ _ _ _ _ (by norm_num) hwQ hh1' hh1
  · exact pixelAt_fill_rect _ _ _ _ _ hw1' hw1 hh1' hh1

/-- Witness for C3 at a concrete input: the hex background "#112233" on
a 100×80 canvas. -/
theorem background_hex_fill_witness :
    ∃ ctx', bgStage testLibs optsW [] (newContext optsW.canvasW optsW.canvasH) =
        .ok ctx' ∧
      ctx'.ops = [.setColor (parseHexColor optsW.bg),
                  .pathRect 0 0 (optsW.canvasW : Rat) (optsW.canvasH : Rat),
                  .fill] ∧
      (parseHexColor optsW.bg).a = 255 ∧
      (∀ img x y, Op.drawImage img x y ∉ ctx'.ops) ∧
      (∀ L', bgStage L' optsW [] (newContext optsW.canvasW optsW.canvasH) =
        bgStage testLibs optsW [] (newContext optsW.canvasW optsW.canvasH)) ∧
      pixelAt ctx'.ops 0 0 = parseHexColor optsW.bg ∧
      pixelAt ctx'.ops (optsW.canvasW - 1) 0 = parseHexColor optsW.bg ∧
      pixelAt ctx'.ops 0 (optsW.canvasH - 1) = parseHexColor optsW.bg ∧
      pixelAt ctx'.ops (optsW.canvasW - 1) (optsW.canvasH - 1) =
        parseHexColor optsW.bg := by
  have h := background_hex_fill testLibs optsW [] (by decide)
    (by decide) (by decide)
  simpa using h

/-- Counterexample for C7: with the empty background spec the code does
NOT treat the spec as an image reference.  The resolver request list
contains only the avatar and logo identifiers (the empty spec is not
appended), and stage 1 performs a solid fill with the default color
`#FFFFFF` rather than decoding and drawing fetched bytes. -/
theorem empty_bg_counterexample :
    requestList { optsW with bg := "" } =
      [optsW.avaURL, optsW.logoURL] ∧
    ∃ ctx', bgStage testLibs { optsW with bg := "" } [[4, 4], [9, 2]]
        (newContext 100 80) = .ok ctx' ∧
      ctx'.ops = [.setColor (parseHexColor defaultBgColor),
                  .pathRect 0 0 (100 : Rat) (80 : Rat), .fill] := by
  refine ⟨rfl, _, rfl, ?_⟩
  with_unfolding_all rfl

/-- Claim C7 as amended: every background spec that is non-hex AND
non-empty is treated as an image reference — it is appended to the
resolver request list as the third identifier, and stage 1 crop-resizes
the fetched bytes to the canvas size, decodes them, and draws the
bitmap at the origin with no solid-color fill; a missing third buffer
would be a Go slice-range panic.  (The empty string, by contrast, takes
the default solid-color fill — see the counterexample.) -/
theorem nonhex_bg_image (L : Libs) (opts : Options) (bufs : List Bytes)
    (ctx : GG) (h1 : hexMatch opts.bg = false) (h2 : opts.bg ≠ "") :
    requestList opts = [opts.avaURL, opts.logoURL, opts.bg] ∧
    (∀ b, bufs[2]? = some b →
      ∀ rb img, resize L.vips b opts.canvasW opts.canvasH = .ok rb →
        L.imgDecode rb = .ok img →
        bgStage L opts bufs ctx =
          .ok { ctx with ops := ctx.ops ++ [.drawImage img 0 0] }) ∧
    (bufs[2]? = none →
      bgStage L opts bufs ctx = .error (.outOfRange "index out of range")) := by
  have hcond : ¬(hexMatch opts.bg = true ∨ opts.bg = "") := by
    rintro (hx | hx)
    · rw [h1] at hx; exact Bool.noConfusion hx
    · exact h2 hx
  refine ⟨by simp [requestList, h1, h2], ?_, ?_⟩
  · intro b hb rb img hrs hdec
    unfold bgStage
    rw [if_neg hcond, hb]
    simp [drawBackground, emapGo, hrs, hdec]
  · intro hb
    unfold bgStage
    rw [if_neg hcond, hb]

/-- Options with a non-hex, non-empty background on a tiny canvas. -/
def optsImgBg : Options :=
  { optsW with canvasW := 4, canvasH := 3, bg := "bg.png" }

/-- Witness for C7 (amended) at a concrete input: background "bg.png" is
requested third and drawn as an image after crop-resize and decode. -/
theorem nonhex_bg_image_witness :
    requestList optsImgBg = [optsImgBg.avaURL, optsImgBg.logoURL, optsImgBg.bg] ∧
    bgStage testLibs optsImgBg [[4, 4], [9, 2], [5, 5]] (newContext 4 3) =
      .ok { newContext 4 3 with ops := (newContext 4 3).ops ++
        [.drawImage ⟨4, 3, mkGrid 4 3 fun _ _ => ⟨200, 10, 10, 255⟩⟩ 0 0] } := by
  have h := nonhex_bg_image testLibs optsImgBg [[4, 4], [9, 2], [5, 5]]
    (newContext 4 3) (by decide) (by decide)
  exact ⟨h.1, h.2.1 [5, 5] rfl [4, 3]
    ⟨4, 3, mkGrid 4 3 fun _ _ => ⟨200, 10, 10, 255⟩⟩ (by decide) (by decide)⟩

/-- Claim C9: `Draw` is deterministic as a two-run property.  The
embedding is a pure function, so two calls can only differ through the
environment; the theorem shows that with the same libraries, identical
Options, and resolvers that return identical byte buffers for the
requested identifiers, the two runs produce identical results (hence
byte-identical output images) — the resolver is consulted only on
`requestList opts`, so behaviour elsewhere cannot influence the run. -/
theorem draw_deterministic
    (g1 g2 : List String → Except GoErr (List Bytes)) (L : Libs)
    (opts : Options) (hg : g1 (requestList opts) = g2 (requestList opts)) :
    DrawT ⟨g1, L⟩ opts = DrawT ⟨g2, L⟩ opts := by
  unfold DrawT
  rw [show (⟨g1, L⟩ : Env).getAll = g1 from rfl,
      show (⟨g2, L⟩ : Env).getAll = g2 from rfl, hg]

/-- A resolver for the determinism witness: serves the two test
identifiers, fails otherwise. -/
def getterA : List String → Except GoErr (List Bytes) := fun l =>
  if l = ["ava", "logo"] then .ok [[4, 4], [9, 2]] else .error (.base "g1")

/-- A second resolver agreeing with `getterA` on the test identifiers
but differing everywhere else. -/
def getterB : List String → Except GoErr (List Bytes) := fun l =>
  if l = ["ava", "logo"] then .ok [[4, 4], [9, 2]] else .error (.base "g2")

/-- Witness for C9 at a concrete input: two runs against the two
different resolvers that agree on the requested buffers coincide. -/
theorem draw_deterministic_witness :
    DrawT ⟨getterA, testLibs⟩ optsW = DrawT ⟨getterB, testLibs⟩ optsW :=
  draw_deterministic getterA getterB testLibs optsW (by decide)

theorem emapGo_err {α : Type} (x : Except GoErr α) (e : GoErr)
    (h : emapGo x = .error (.goerr e)) : x = .error e := by
  cases x with
  | error e0 =>
    simp only [emapGo, Except.error.injEq, RunErr.goerr.injEq] at h
    rw [h]
  | ok a => exact Except.noConfusion h

theorem drawBackground_err (L : Libs) (opts : Options) (ctx : GG)
    (ob : Option Bytes) (col : String) (e : GoErr)
    (h : drawBackground L opts ctx ob col = .error e) :
    ∃ m c, e = .wrap m c ∧ m ∈ stageMsgs .background := by
  unfold drawBackground at h
  cases ob with
  | none => exact Except.noConfusion h
  | some buf =>
    cases hrs : resize L.vips buf opts.canvasW opts.canvasH with
    | error e0 =>
      simp only [hrs, Except.error.injEq] at h
      exact ⟨_, e0, h.symm, by simp [stageMsgs]⟩
    | ok rb =>
      simp only [hrs] at h
      cases hdec : L.imgDecode rb with
      | error e0 =>
        simp only [hdec, Except.error.injEq] at h
        exact ⟨_, e0, h.symm, by simp [stageMsgs]⟩
      | ok img => simp only [hdec] at h; exact Except.noConfusion h

theorem bgStage_err (L : Libs) (opts : Options) (bufs : List Bytes)
    (ctx : GG) (e : GoErr)
    (h : bgStage L opts bufs ctx = .error (.goerr e)) :
    ∃ m c, e = .wrap m c ∧ m ∈ stageMsgs .background := by
  unfold bgStage at h
  split at h
  · exact drawBackground_err _ _ _ _ _ _ (emapGo_err _ _ h)
  · split at h
    · exact drawBackground_err _ _ _ _ _ _ (emapGo_err _ _ h)
    · injection h with h2
      exact RunErr.noConfusion h2

theorem drawAvatar_err (L : Libs) (opts : Options) (ctx : GG)
    (buf : Bytes) (e : GoErr) (h : drawAvatar L opts ctx buf = .error e) :
    ∃ m c, e = .wrap m c ∧ m ∈ stageMsgs .avatar := by
  unfold drawAvatar at h
  cases hrs : resize L.vips buf opts.avaD opts.avaD with
  | error e0 =>
    simp only [hrs, Except.error.injEq] at h
    exact ⟨_, e0, h.symm, by simp [stageMsgs]⟩
  | ok ab =>
    simp only [hrs] at h
    cases hdec : L.imgDecode ab with
    | error e0 =>
      simp only [hdec, Except.error.injEq] at h
      exact ⟨_, e0, h.symm, by simp [stageMsgs]⟩
    | ok img => simp only [hdec] at h; exact Except.noConfusion h

theorem drawAuthor_err (L : Libs) (opts : Options) (ctx : GG) (e : GoErr)
    (h : drawAuthor L opts ctx = .error e) :
    ∃ m c, e = .wrap m c ∧ m ∈ stageMsgs .author := by
  unfold drawAuthor at h
  cases hlf : loadFont L textFont opts.authorSize with
  | error e0 =>
    simp only [hlf, Except.error.injEq] at h
    exact ⟨_, e0, h.symm, by simp [stageMsgs]⟩
  | ok f => simp only [hlf] at h; exact Except.noConfusion h

theorem drawTitle_err (L : Libs) (opts : Options) (ctx : GG) (e : GoErr)
    (h : drawTitle L opts ctx = .error e) :
    ∃ m c, e = .wrap m c ∧ m ∈ stageMsgs .title := by
  unfold drawTitle at h
  cases hlf : loadFont L textFont opts.titleSize with
  | error e0 =>
    simp only [hlf, Except.error.injEq] at h
    exact ⟨_, e0, h.symm, by simp [stageMsgs]⟩
  | ok f => simp only [hlf] at h; exact Except.noConfusion h

theorem drawLogo_err (L : Libs) (opts : Options) (ctx : GG)
    (buf : Bytes) (e : GoErr) (h : drawLogo L opts ctx buf = .error e) :
    ∃ m c, e = .wrap m c ∧ m ∈ stageMsgs .logo := by
  unfold drawLogo at h
  cases hsc : scale L.vips buf opts.logoH with
  | error e0 =>
    simp only [hsc, Except.error.injEq] at h
    exact ⟨_, e0, h.symm, by simp [stageMsgs]⟩
  | ok lb =>
    simp only [hsc] at h
    cases hdec : L.imgDecode lb with
    | error e0 =>
      simp only [hdec, Except.error.injEq] at h
      exact ⟨_, e0, h.symm, by simp [stageMsgs]⟩
    | ok img => simp only [hdec] at h; exact Except.noConfusion h

/-- Claim C2: whenever `Draw` returns a Go error (and hence, in Go,
a nil image — the `Except.error` case carries no canvas), the error
wraps an underlying cause with a stage-identifying message: either the
fetch failed before any stage ran (empty stage trace), or the message
belongs to the last stage entered; and the stage trace is a prefix of
the fixed stage order, i.e. no stage after the first failing one was
ever entered, so no partial canvas can escape. -/
theorem draw_error_wrapped (env : Env) (opts : Options) (e : GoErr)
    (he : Draw env opts = .error (.goerr e)) :
    (∃ m c, e = .wrap m c ∧
      (((DrawT env opts).1 = [] ∧ m = "could not get an image") ∨
       (∃ s, ((DrawT env opts).1).getLast? = some s ∧ m ∈ stageMsgs s))) ∧
    (∃ n, (DrawT env opts).1 = stageOrder.take n) := by
  unfold Draw at he
  revert he
  unfold DrawT
  cases hget : env.getAll (requestList opts) with
  | error e0 =>
    intro he
    simp only [Except.error.injEq, RunErr.goerr.injEq] at he
    subst he
    exact ⟨⟨_, e0, rfl, Or.inl ⟨rfl, rfl⟩⟩, 0, rfl⟩
  | ok bufs =>
    simp only
    cases hbg : bgStage env.libs opts bufs
        (newContext opts.canvasW opts.canvasH) with
    | error e0 =>
      intro he
      simp only [Except.error.injEq] at he
      subst he
      obtain ⟨m, c, hm, hmem⟩ := bgStage_err _ _ _ _ _ hbg
      exact ⟨⟨m, c, hm, Or.inr ⟨.background, rfl, hmem⟩⟩, 1, rfl⟩
    | ok c1 =>
      simp only
      cases hfg : drawForeground opts c1 with
      | error e0 => simp [drawForeground] at hfg
      | ok c2 =>
        simp only
        cases hb0 : bufs[0]? with
        | none =>
          intro he
          simp only [Except.error.injEq] at he
          exact absurd he (by simp)
        | some avaBuf =>
          simp only
          cases hav : drawAvatar env.libs opts c2 avaBuf with
          | error e0 =>
            intro he
            simp only [Except.error.injEq, RunErr.goerr.injEq] at he
            subst he
            obtain ⟨m, c, hm, hmem⟩ := drawAvatar_err _ _ _ _ _ hav
            exact ⟨⟨m, c, hm, Or.inr ⟨.avatar, rfl, hmem⟩⟩, 3, rfl⟩
          | ok c3 =>
            simp only
            cases hau : drawAuthor env.libs opts c3 with
            | error e0 =>
              intro he
              simp only [Except.error.injEq, RunErr.goerr.injEq] at he
              subst he
              obtain ⟨m, c, hm, hmem⟩ := drawAuthor_err _ _ _ _ hau
              exact ⟨⟨m, c, hm, Or.inr ⟨.author, rfl, hmem⟩⟩, 4, rfl⟩
            | ok c4 =>
              simp only
              cases hti : drawTitle env.libs opts c4 with
              | error e0 =>
                intro he
                simp only [Except.error.injEq, RunErr.goerr.injEq] at he
                subst he
                obtain ⟨m, c, hm, hmem⟩ := drawTitle_err _ _ _ _ hti
                exact ⟨⟨m, c, hm, Or.inr ⟨.title, rfl, hmem⟩⟩, 5, rfl⟩
              | ok c5 =>
                simp only
                cases hb1 : bufs[1]? with
                | none =>
                  intro he
                  simp only [Except.error.injEq] at he
                  exact absurd he (by simp)
                | some logoBuf =>
                  simp only
                  cases hlg : drawLogo env.libs opts c5 logoBuf with
                  | error e0 =>
                    intro he
                    simp only [Except.error.injEq, RunErr.goerr.injEq] at he
                    subst he
                    obtain ⟨m, c, hm, hmem⟩ := drawLogo_err _ _ _ _ _ hlg
                    exact ⟨⟨m, c, hm, Or.inr ⟨.logo, rfl, hmem⟩⟩, 6, rfl⟩
                  | ok c6 =>
                    intro he
                    exact Except.noConfusion he

/-- A resolver returning an undecodable avatar buffer, to drive a
concrete failing render. -/
def getterBad : List String → Except GoErr (List Bytes) := fun l =>
  if l = ["ava", "logo"] then .ok [[1], [9, 2]] else .error (.base "nope")

/-- Witness for C2 at a concrete input: with an undecodable avatar
buffer the render fails in the avatar stage with the wrapped resize
message, the trace ends at the avatar stage, and it is a prefix of the
stage order. -/
theorem draw_error_wrapped_witness :
    (∃ m c, GoErr.wrap "could not resize the avatar" (.base "bad buffer") =
        .wrap m c ∧
      (((DrawT ⟨getterBad, testLibs⟩ optsW).1 = [] ∧
          m = "could not get an image") ∨
       (∃ s, ((DrawT ⟨getterBad, testLibs⟩ optsW).1).getLast? = some s ∧
          m ∈ stageMsgs s))) ∧
    (∃ n, (DrawT ⟨getterBad, testLibs⟩ optsW).1 = stageOrder.take n) :=
  draw_error_wrapped ⟨getterBad, testLibs⟩ optsW
    (.wrap "could not resize the avatar" (.base "bad buffer")) (by rfl)

/-- The resolver request list always has two or three entries. -/
theorem requestList_length (opts : Options) :
    (requestList opts).length = 2 ∨ (requestList opts).length = 3 := by
  unfold requestList
  split
  · exact Or.inl rfl
  · split
    · exact Or.inl rfl
    · exact Or.inr rfl

/-- For a non-hex, non-empty background spec the request list has
exactly three entries. -/
theorem requestList_length3 (opts : Options) (h1 : hexMatch opts.bg = false)
    (h2 : opts.bg ≠ "") : (requestList opts).length = 3 := by
  unfold requestList
  rw [if_neg (by simp [h1]), if_neg h2]
  rfl

/-- The background stage never produces an out-of-range panic when the
third buffer is present in the only case it is consulted. -/
theorem bgStage_no_oob (L : Libs) (opts : Options) (bufs : List Bytes)
    (ctx : GG)
    (h2 : hexMatch opts.bg = false → opts.bg ≠ "" → bufs[2]? ≠ none) :
    ∀ m, bgStage L opts bufs ctx ≠ .error (.outOfRange m) := by
  intro m
  unfold bgStage
  split
  · simp [drawBackground, emapGo]
  · rename_i hcond
    push_neg at hcond
    obtain ⟨hx, hne⟩ := hcond
    have hx' : hexMatch opts.bg = false := by
      cases hB : hexMatch opts.bg
      · rfl
      · exact absurd hB hx
    cases hb2 : bufs[2]? with
    | none => exact absurd hb2 (h2 hx' hne)
    | some b =>
      cases hdb : drawBackground L opts ctx (some b)
          (if hexMatch opts.bg then opts.bg else defaultBgColor) with
      | error e0 => simp [emapGo, hdb]
      | ok g => simp [emapGo, hdb]

/-- Claim C10: `Draw` requests exactly the avatar and logo identifiers,
appending the background spec as a third identifier only when it is
non-hex and non-empty; under the resolver contract that the returned
buffer list has the same length as the request list, every buffer index
the pipeline uses (0, 1, and conditionally 2) is in bounds, so the
slice-range panic can never occur. -/
theorem draw_index_safe (env : Env) (opts : Options) (bufs : List Bytes)
    (hg : env.getAll (requestList opts) = .ok bufs)
    (hl : bufs.length = (requestList opts).length) :
    requestList opts = [opts.avaURL, opts.logoURL] ++
      (if hexMatch opts.bg = false ∧ opts.bg ≠ "" then [opts.bg] else []) ∧
    ∀ m, Draw env opts ≠ .error (.outOfRange m) := by
  have hlen2 : 2 ≤ bufs.length := by
    rcases requestList_length opts with h | h <;> omega
  have h0 : bufs[0]? ≠ none := by
    intro hc
    rw [List.getElem?_eq_none_iff] at hc
    omega
  have h1' : bufs[1]? ≠ none := by
    intro hc
    rw [List.getElem?_eq_none_iff] at hc
    omega
  have h2' : hexMatch opts.bg = false → opts.bg ≠ "" → bufs[2]? ≠ none := by
    intro hx hne hc
    rw [List.getElem?_eq_none_iff] at hc
    have := requestList_length3 opts hx hne
    omega
  constructor
  · unfold requestList
    cases hB : hexMatch opts.bg
    · by_cases hE : opts.bg = "" <;> simp [hB, hE]
    · simp [hB]
  · intro m
    have hno := bgStage_no_oob env.libs opts bufs
      (newContext opts.canvasW opts.canvasH) h2'
    unfold Draw DrawT
    simp only [hg]
    repeat' split
    all_goals intro hc
    all_goals simp_all

/-- Witness for C10 at a concrete input: the hex-background options
request exactly two buffers and the render hits no out-of-range panic. -/
theorem draw_index_safe_witness :
    requestList optsW = [optsW.avaURL, optsW.logoURL] ++
      (if hexMatch optsW.bg = false ∧ optsW.bg ≠ "" then [optsW.bg] else []) ∧
    ∀ m, Draw ⟨getterA, testLibs⟩ optsW ≠ .error (.outOfRange m) :=
  draw_index_safe ⟨getterA, testLibs⟩ optsW [[4, 4], [9, 2]]
    (by decide) (by decide)

end OgPreview
